import Mathlib

/-!
Shallow embedding of `src/python/neural/MultipleShootingTrajectory.py`
(class `MultipleShootingTrajectory`), with real numbers modelled by `ℚ`.

The external collaborators (the `dart` physics engine, the torch autodiff
runtime and the ipopt solver) are not part of the repository source; where a
definition stands in for one of them its doc comment says so and follows the
words of the specification.
-/

namespace MST

/-- The constructor configuration of `MultipleShootingTrajectory.__init__`
(lines 16-46): dimensionality of the world, horizon length, requested
shooting-segment length, the start-tunability flag, the loop-closure flag,
the optional fixed terminal target and the disabled-actuator index list. -/
structure Config where
  world_dofs : ℕ
  steps : ℕ
  shooting_length_arg : ℕ
  tune_starting_point : Bool
  enforce_loop : Bool
  enforce_final_state : Option (List ℚ)
  disable_actuators : List ℕ

/-- Line 36: `self.shooting_length = min(shooting_length, steps)`. -/
def Config.shooting_length (c : Config) : ℕ :=
  min c.shooting_length_arg c.steps

/-- Line 46: `self.num_shots = math.floor(steps / shooting_length)`
(natural-number division is floor division). -/
def Config.num_shots (c : Config) : ℕ :=
  c.steps / c.shooting_length

/-- Line 216: `self.enforce_loop or (self.enforce_final_state is not None)`. -/
def Config.loopOrFinal (c : Config) : Bool :=
  c.enforce_loop || c.enforce_final_state.isSome

/-- Lines 69-71: the actuator mask starts as all ones and every index in
`disable_actuators` is overwritten with zero. -/
def Config.mask (c : Config) : List ℚ :=
  c.disable_actuators.foldl (fun m j => m.set j 0) (List.replicate c.world_dofs 1)

/-- Line 108: `t = self.torques[i] * self.mask` (element-wise product). -/
def effTorque (c : Config) (torque : List ℚ) : List ℚ :=
  List.zipWith (· * ·) torque c.mask

/-- `get_flat_problem_dim` (lines 187-205), kept in the source's order of
subtractions (`ℕ` subtraction truncates at zero exactly where the Python
integer would go negative, which never happens for constructible configs). -/
def get_flat_problem_dim (c : Config) : ℕ :=
  let world_dofs := c.world_dofs
  let knot_phase_dim := world_dofs * 2
  let torques_dim := c.shooting_length * world_dofs
  let shot_dim := knot_phase_dim + torques_dim
  c.num_shots * shot_dim - (if c.tune_starting_point then 0 else 2 * world_dofs)
    - c.steps % c.shooting_length * world_dofs

/-- `get_constraint_dim` (lines 207-219). -/
def get_constraint_dim (c : Config) : ℕ :=
  (c.num_shots - 1 + (if c.loopOrFinal then 1 else 0)) * (c.world_dofs * 2)

/-- A decision variable of the flat problem: one `world_dofs`-sized block. -/
inductive Var where
  | torque (t : ℕ)
  | knotPos (i : ℕ)
  | knotVel (i : ℕ)
deriving DecidableEq, Repr

/-- The traversal shared by `flatten` (lines 221-270), `unflatten`
(lines 272-291) and `get_knot_x_offsets` (lines 293-314): for each segment
`i`, first the knot phase (when `i > 0 or tune_starting_point`), then
`shot_length = min(shooting_length, len(torques) - torque_cursor)` torque
blocks.  The recursion counts down the remaining segments; `i` is the
segment index and `tc` the torque cursor.  The torques list always has
length `steps` (constructor line 49; `unflatten` only overwrites entries),
so `len(self.torques)` is written `c.steps`. -/
def flatVarsGo (c : Config) : ℕ → ℕ → ℕ → List Var
  | 0, _, _ => []
  | r + 1, i, tc =>
    (if 0 < i ∨ c.tune_starting_point then [Var.knotPos i, Var.knotVel i] else [])
      ++ (List.range (min c.shooting_length (c.steps - tc))).map (fun j => Var.torque (tc + j))
      ++ flatVarsGo c r (i + 1) (tc + min c.shooting_length (c.steps - tc))

/-- The full traversal order of the flat decision vector. -/
def flatVars (c : Config) : List Var :=
  flatVarsGo c c.num_shots 0 0

/-- The mutable trajectory parameter store: per-step torques and the knot
anchors (constructor lines 49-67). -/
structure Store where
  torques : List (List ℚ)
  knot_poses : List (List ℚ)
  knot_vels : List (List ℚ)

/-- Reading one decision variable's block from the store (the `state`
branches of `flatten`, lines 251-267). -/
def readBlock (st : Store) : Var → List ℚ
  | Var.torque t => st.torques.getD t []
  | Var.knotPos i => st.knot_poses.getD i []
  | Var.knotVel i => st.knot_vels.getD i []

/-- Writing one decision variable's block into the store (the slice
assignments of `unflatten`, lines 281-289). -/
def writeBlock (st : Store) : Var → List ℚ → Store
  | Var.torque t, b => { st with torques := st.torques.set t b }
  | Var.knotPos i, b => { st with knot_poses := st.knot_poses.set i b }
  | Var.knotVel i, b => { st with knot_vels := st.knot_vels.set i b }

/-- `unflatten` (lines 272-291): walk the traversal, reading
`x[flat_cursor : flat_cursor + world_dofs]` for each block (a short final
slice silently truncates, as the Python slice does) and advancing the
cursor by `world_dofs`. -/
def unflatten (c : Config) (x : List ℚ) (st : Store) : Store :=
  ((flatVars c).foldl
    (fun (p : Store × ℕ) v =>
      (writeBlock p.1 v ((x.drop p.2).take c.world_dofs), p.2 + c.world_dofs))
    (st, 0)).1

/-- One numpy slice assignment `out[cursor : cursor + world_dofs] = b` after
another: each write succeeds only when the block has exactly `world_dofs`
entries and the slice lies inside `out` (otherwise numpy raises a broadcast
error).  Models the write loop of `flatten`. -/
def writeBlocks (D : ℕ) : List (List ℚ) → List ℚ → Option (List ℚ)
  | [], out => some out
  | b :: bs, out =>
    if b.length = D ∧ D ≤ out.length then
      match writeBlocks D bs (out.drop D) with
      | some rest => some (b ++ rest)
      | none => none
    else none

/-- `flatten(np.zeros(n), 'state')` (lines 221-270): the output buffer has
length `get_flat_problem_dim()` (the assert on line 225), and the traversal's
blocks are written into it in order; `none` models the run failing with a
numpy broadcast error. -/
def flatten_state (c : Config) (st : Store) : Option (List ℚ) :=
  writeBlocks c.world_dofs ((flatVars c).map (readBlock st))
    (List.replicate (get_flat_problem_dim c) 0)

/-! ## Dense matrices (row-major lists) for the Jacobian chain. -/

/-- A dense matrix, row-major. -/
abbrev Mat := List (List ℚ)

def dotQ (a b : List ℚ) : ℚ := (List.zipWith (· * ·) a b).sum

/-- `np.matmul`. -/
def matMul (A B : Mat) : Mat :=
  A.map (fun r => B.transpose.map (fun col => dotQ r col))

/-- Matrix addition. -/
def matAdd (A B : Mat) : Mat := List.zipWith (List.zipWith (· + ·)) A B

/-- Scalar times matrix (numpy `scalar * ndarray`). -/
def smulMat (q : ℚ) (A : Mat) : Mat := A.map (List.map (q * ·))

/-- `np.identity(world_dofs)`. -/
def idMat (D : ℕ) : Mat :=
  (List.range D).map (fun i => (List.range D).map (fun j => if i = j then (1 : ℚ) else 0))

/-- `np.zeros((world_dofs, world_dofs))`. -/
def zeroMat (D : ℕ) : Mat := List.replicate D (List.replicate D 0)

/-- `np.concatenate([A, B], axis=1)`. -/
def hcat (A B : Mat) : Mat := List.zipWith (· ++ ·) A B

/-- The source writes a `D × D` (or `D × 2D`) block into `out` row by row,
column by column (lines 521-528 and 559-566): row-major flattening. -/
def matEntries (A : Mat) : List ℚ := A.flatten

/-! ## The external forward-dynamics step and its sensitivity snapshot. -/

/-- Modelled from the spec: the opaque per-step sensitivity object
(`dart.neural.BackpropSnapshot`, external to this repository).  Spec section 6:
it "must expose `pos_pos`, `pos_vel` (implicit via `Δt · vel_vel`),
`vel_pos`, `vel_vel`, `vel_force` as `D×D` real matrices". -/
structure Snapshot where
  posPos : Mat
  velPos : Mat
  velVel : Mat
  velForce : Mat

/-- Modelled from the spec: the external forward-dynamics step (`dart_layer`)
and the external running/terminal cost functions.  Spec section 6: the step
consumes `(pos, vel, masked_torque)` and returns the next `(pos, vel)` plus
the sensitivity snapshot; the costs map `(pos, vel, torque)` and `(pos, vel)`
to scalars. -/
structure Dyn where
  step : List ℚ → List ℚ → List ℚ → List ℚ × List ℚ
  snap : List ℚ → List ℚ → List ℚ → Snapshot
  stepLoss : List ℚ → List ℚ → List ℚ → ℚ
  finalLoss : List ℚ → List ℚ → ℚ
  dt : ℚ

/-- Modelled from the spec: a linear forward-dynamics stand-in with known
analytic Jacobians, for `D = 1`.  Writing `Pp, Vp, Vv, Vf` for the four
snapshot matrices and `dt` for the timestep, the step is
`v' = Vp·p + Vv·v + Vf·f` and `p' = Pp·p + dt·Vv·v + dt·Vf·f`, so that the
snapshot-exposed maps are exactly the analytic Jacobians of the step and
`∂p'/∂v = dt·Vv`, `∂p'/∂f = dt·Vf` (spec section 6: `pos_vel` is implicit
via `Δt · vel_vel`).  The cost functions are zero (they play no part in the
constraint Jacobian). -/
def linDyn (Pp Vp Vv Vf timestep : ℚ) : Dyn where
  step := fun p v f =>
    let p0 := p.getD 0 0
    let v0 := v.getD 0 0
    let f0 := f.getD 0 0
    ([Pp * p0 + timestep * Vv * v0 + timestep * Vf * f0], [Vp * p0 + Vv * v0 + Vf * f0])
  snap := fun _ _ _ => ⟨[[Pp]], [[Vp]], [[Vv]], [[Vf]]⟩
  stepLoss := fun _ _ _ => 0
  finalLoss := fun _ _ => 0
  dt := timestep

/-! ## The rollout engine: `unroll` (lines 93-181). -/

/-- The running state of the rollout loop: current `(pos, vel)`, the loss
accumulator, the pre-knot records and the snapshot list so far. -/
structure RollState where
  pos : List ℚ
  vel : List ℚ
  loss : ℚ
  preP : List (List ℚ)
  preV : List (List ℚ)
  snaps : List Snapshot

/-- One iteration of the `unroll` loop body (lines 107-157): mask the torque,
reset to the knot anchor at a segment boundary (recording the pre-knot state
first), accumulate the running cost, take the dynamics step and store the
snapshot.  The soft knot-barrier terms use `exp`/`norm` on the autodiff path
only (external, spec section 1); they are not part of any claim here and are
omitted from the loss accumulator. -/
def unrollStep (c : Config) (dyn : Dyn) (st : Store) (rs : RollState) (i : ℕ) : RollState :=
  let t := effTorque c (st.torques.getD i [])
  let atKnot := i % c.shooting_length = 0 ∧ 0 < i
  let knot_index := i / c.shooting_length
  let pos := if atKnot then st.knot_poses.getD knot_index [] else rs.pos
  let vel := if atKnot then st.knot_vels.getD knot_index [] else rs.vel
  let preP := if atKnot then rs.preP.set knot_index rs.pos else rs.preP
  let preV := if atKnot then rs.preV.set knot_index rs.vel else rs.preV
  let loss := rs.loss + dyn.stepLoss pos vel t
  let (next_pos, next_vel) := dyn.step pos vel t
  { pos := next_pos, vel := next_vel, loss := loss, preP := preP, preV := preV,
    snaps := rs.snaps ++ [dyn.snap pos vel t] }

/-- The results of a rollout that later queries read (`last_preknot_poses`,
`last_preknot_vels`, `last_terminal_pos`, `last_terminal_vel`,
`self.snapshots`, `self.last_loss`). -/
structure Unrolled where
  preP : List (List ℚ)
  preV : List (List ℚ)
  termPos : List ℚ
  termVel : List ℚ
  snaps : List Snapshot
  loss : ℚ

/-- `unroll()` with `use_knots=True` (lines 93-181): start from knot 0,
iterate the loop body over every timestep, then add the terminal cost and
record the terminal state.  The pre-knot lists start as the constructor's
zero vectors (lines 76-79). -/
def unroll (c : Config) (dyn : Dyn) (st : Store) : Unrolled :=
  let zvec : List ℚ := List.replicate c.world_dofs 0
  let init : RollState :=
    { pos := st.knot_poses.getD 0 [], vel := st.knot_vels.getD 0 [], loss := 0,
      preP := List.replicate c.num_shots zvec, preV := List.replicate c.num_shots zvec,
      snaps := [] }
  let fin := (List.range c.steps).foldl (unrollStep c dyn st) init
  { preP := fin.preP, preV := fin.preV, termPos := fin.pos, termVel := fin.vel,
    snaps := fin.snaps, loss := fin.loss + dyn.finalLoss fin.pos fin.vel }

/-! ## The constraint evaluator: `eval_g` (lines 385-436). -/

/-- Element-wise difference of two vectors. -/
def zipSub (a b : List ℚ) : List ℚ := List.zipWith (· - ·) a b

/-- The constraint vector written by `eval_g` (lines 397-419): first, when
loop closure is on, `terminal - knot0`; otherwise, when a fixed terminal
state is supplied, `terminal - goal` with `goal_pos = target[:D]` and
`goal_vel = target[D:]`; then for each knot `i` other than knot 0, in
increasing order, `preknot_pos - knot_pos` followed by
`preknot_vel - knot_vel`. -/
def eval_g_vec (c : Config) (u : Unrolled) (st : Store) : List ℚ :=
  (if c.enforce_loop then
      zipSub u.termPos (st.knot_poses.getD 0 []) ++ zipSub u.termVel (st.knot_vels.getD 0 [])
    else
      match c.enforce_final_state with
      | some goal =>
          zipSub u.termPos (goal.take c.world_dofs) ++ zipSub u.termVel (goal.drop c.world_dofs)
      | none => [])
    ++ (List.range c.num_shots).flatMap (fun i =>
        if i = 0 then []
        else
          zipSub (u.preP.getD i []) (st.knot_poses.getD i [])
            ++ zipSub (u.preV.getD i []) (st.knot_vels.getD i []))

/-- `ensure_fresh_rollout` (lines 336-345) always re-rolls: `eval_g(x)` is
the constraint vector of the rollout of the store decoded from `x`. -/
def eval_g_of_x (c : Config) (dyn : Dyn) (st : Store) (x : List ℚ) : List ℚ :=
  let st' := unflatten c x st
  eval_g_vec c (unroll c dyn st') st'

/-! ## The offset tables (lines 293-334). -/

/-- `get_knot_x_offsets` (lines 293-314): per knot, its starting index into
the flat vector, `None` for the untunable knot 0; the cursors advance exactly
as in `flatten`. -/
def knotXOffsetsGo (c : Config) : ℕ → ℕ → ℕ → ℕ → List (Option ℕ)
  | 0, _, _, _ => []
  | r + 1, i, fc, tc =>
    let L := min c.shooting_length (c.steps - tc)
    if 0 < i ∨ c.tune_starting_point then
      some fc :: knotXOffsetsGo c r (i + 1) (fc + c.world_dofs * 2 + L * c.world_dofs) (tc + L)
    else
      none :: knotXOffsetsGo c r (i + 1) (fc + L * c.world_dofs) (tc + L)

def get_knot_x_offsets (c : Config) : List (Option ℕ) :=
  knotXOffsetsGo c c.num_shots 0 0 0

/-- `get_knot_g_offsets` (lines 316-334): per knot, its starting row in the
constraint vector (`None` for knot 0), after the optional loop/terminal
block. -/
def knotGOffsetsGo (D : ℕ) : ℕ → ℕ → ℕ → List (Option ℕ)
  | 0, _, _ => []
  | r + 1, i, fc =>
    if 0 < i then some fc :: knotGOffsetsGo D r (i + 1) (fc + D * 2)
    else none :: knotGOffsetsGo D r (i + 1) fc

def get_knot_g_offsets (c : Config) : List (Option ℕ) :=
  knotGOffsetsGo c.world_dofs c.num_shots 0 (if c.loopOrFinal then c.world_dofs * 2 else 0)

/-! ## The Jacobian assembler: `eval_jac_g` (lines 438-594). -/

/-- The backward per-segment chain of `insertFullJacobian` (lines 492-553),
iterating `i` from `end_index_exclusive - 1` down to `start_index` with the
four running accumulator matrices.  The update of the accumulators keeps the
source's sequential assignment order (lines 543-553): `posend_velnext` and
`velend_velnext` are computed from the already reassigned `posend_posnext`
and `velend_posnext`.  Returns the torque-block values emitted along the way
(lines 520-528) together with the final accumulators. -/
def jacChainGo (snaps : List Snapshot) (dt : ℚ) (start : ℕ) :
    ℕ → Mat × Mat × Mat × Mat → List ℚ × (Mat × Mat × Mat × Mat)
  | 0, acc => ([], acc)
  | k + 1, (posend_posnext, posend_velnext, velend_posnext, velend_velnext) =>
    let i := start + k
    let snapshot := snaps.getD i ⟨[], [], [], []⟩
    let posnext_velnext := dt
    let velnext_pos := snapshot.velPos
    let velnext_vel := snapshot.velVel
    let velnext_force := snapshot.velForce
    let posnext_pos := snapshot.posPos
    let posnext_vel := smulMat posnext_velnext velnext_vel
    let posnext_force := smulMat posnext_velnext velnext_force
    let posend_force := matAdd (matMul posend_posnext posnext_force)
      (matMul posend_velnext velnext_force)
    let velend_force := matAdd (matMul velend_posnext posnext_force)
      (matMul velend_velnext velnext_force)
    let emitted := matEntries posend_force ++ matEntries velend_force
    let posend_posnext1 := matAdd (matMul posend_posnext posnext_pos)
      (matMul posend_velnext velnext_pos)
    let velend_posnext1 := matAdd (matMul velend_posnext posnext_pos)
      (matMul velend_velnext velnext_pos)
    let posend_velnext1 := matAdd (matMul posend_posnext1 posnext_vel)
      (matMul posend_velnext velnext_vel)
    let velend_velnext1 := matAdd (matMul velend_posnext1 posnext_vel)
      (matMul velend_velnext velnext_vel)
    let (rest, accF) := jacChainGo snaps dt start k
      (posend_posnext1, posend_velnext1, velend_posnext1, velend_velnext1)
    (emitted ++ rest, accF)

/-- The values written by one call of `eval_jac_g.insertFullJacobian`
(lines 462-567): the chain over steps
`[last_knot_index * shooting_length, (last_knot_index + 1) * shooting_length)`
starting from accumulators `(I, 0, 0, I)`, followed, when
`includePhasePhase`, by the row-major entries of
`concatenate([posend_posnext, posend_velnext], axis=1)` and
`concatenate([velend_posnext, velend_velnext], axis=1)` (lines 555-566). -/
def insertFullJacobianValues (c : Config) (snaps : List Snapshot) (dt : ℚ)
    (last_knot_index : ℕ) (includePhasePhase : Bool) : List ℚ :=
  let D := c.world_dofs
  let start_index := last_knot_index * c.shooting_length
  let (vals, (pp, pv, vp, vv)) :=
    jacChainGo snaps dt start_index c.shooting_length (idMat D, zeroMat D, zeroMat D, idMat D)
  vals ++ (if includePhasePhase then matEntries (hcat pp pv) ++ matEntries (hcat vp vv) else [])

/-- `insertNegativeIdentity` on the value side (lines 453-460): `2D` values,
all `-1`. -/
def negIdValues (c : Config) : List ℚ := List.replicate (c.world_dofs * 2) (-1)

/-- The full list of Jacobian values written by `eval_jac_g` (lines 569-585):
when loop/terminal is active, the full Jacobian of the last segment (with the
phase-phase block: the call on line 571 leaves `includePhasePhase` at its
default `True`), then a negative identity when both `tune_starting_point` and
`enforce_loop` hold; then, for each knot `i > 0` in increasing order, the
full Jacobian of segment `i - 1` (phase-phase block iff `i > 1 or
tune_starting_point`) followed by a negative identity. -/
def eval_jac_g_values (c : Config) (snaps : List Snapshot) (dt : ℚ) : List ℚ :=
  (if c.loopOrFinal then
      insertFullJacobianValues c snaps dt (c.num_shots - 1) true
        ++ (if c.tune_starting_point && c.enforce_loop then negIdValues c else [])
    else [])
    ++ (List.range c.num_shots).flatMap (fun i =>
        if i = 0 then []
        else
          insertFullJacobianValues c snaps dt (i - 1) (decide (1 < i) || c.tune_starting_point)
            ++ negIdValues c)

/-! ## The sparsity pattern: `get_jac_g_sparsity_indices` (lines 596-689). -/

/-- The `torque_jac_locations` loop of the pattern's `insertFullJacobian`
(lines 643-652): starting after the optional phase columns, append a column
offset per torque, stopping early (`break`) as soon as the advanced cursor
reaches `n`. -/
def torqueLocsGo (D n : ℕ) : ℕ → ℕ → List ℕ
  | 0, _ => []
  | k + 1, cur => cur :: (if n ≤ cur + D then [] else torqueLocsGo D n k (cur + D))

/-- `insertTorquePhaseJacobian` (lines 626-635): `(row, col)` pairs for a
`2D × D` block, row-major. -/
def torquePhasePairs (D rowTop colTop : ℕ) : List (ℕ × ℕ) :=
  (List.range (D * 2)).flatMap (fun r => (List.range D).map (fun cc => (rowTop + r, colTop + cc)))

/-- `insertPhasePhaseJacobian` (lines 615-624): `(row, col)` pairs for a
`2D × 2D` block, row-major. -/
def phasePhasePairs (D rowTop colTop : ℕ) : List (ℕ × ℕ) :=
  (List.range (D * 2)).flatMap (fun r =>
    (List.range (D * 2)).map (fun cc => (rowTop + r, colTop + cc)))

/-- `insertNegativeIdentity` on the pattern side (lines 607-613). -/
def negIdPairs (D rowTop colTop : ℕ) : List (ℕ × ℕ) :=
  (List.range (D * 2)).map (fun i => (rowTop + i, colTop + i))

/-- The pattern's `insertFullJacobian` (lines 637-659): the torque blocks in
reverse order of their column locations, then the phase-phase block when
requested.  When the column anchor is `None` (the untunable knot 0), the
Python adds `None` to an integer and dies with a `TypeError`; that failure is
the `Except.error` case. -/
def sparsityFullJac (c : Config) (n rowTop : ℕ) (colTop : Option ℕ)
    (includePhasePhase : Bool) : Except String (List (ℕ × ℕ)) :=
  match colTop with
  | none => .error "TypeError: unsupported operand types for add: NoneType and int"
  | some col =>
    let D := c.world_dofs
    let cur0 := if includePhasePhase then col + D * 2 else col
    let locs := torqueLocsGo D n c.shooting_length cur0
    .ok (locs.reverse.flatMap (fun loc => torquePhasePairs D rowTop loc)
      ++ (if includePhasePhase then phasePhasePairs D rowTop col else []))

/-- The main knot loop of the pattern generator (lines 676-687), over
`i = 1, ..., num_shots - 1`. -/
def sparsityMainGo (c : Config) (n : ℕ) (xoff goff : List (Option ℕ)) :
    List ℕ → Except String (List (ℕ × ℕ))
  | [] => .ok []
  | i :: rest =>
    match goff.getD i none, xoff.getD i none with
    | some gi, some xi =>
      match
        (match xoff.getD (i - 1) none with
         | none => sparsityFullJac c n gi (some 0) false
         | some xprev => sparsityFullJac c n gi (some xprev) true) with
      | .ok fj =>
        match sparsityMainGo c n xoff goff rest with
        | .ok tail => .ok (fj ++ negIdPairs c.world_dofs gi xi ++ tail)
        | .error e => .error e
      | .error e => .error e
    | _, _ => .error "TypeError: list indices written at a None offset"

/-- `get_jac_g_sparsity_indices` (lines 596-689), as the ordered list of
`(row, col)` pairs (the source keeps two parallel lists `row` and `col`).
When loop/terminal is active, first the full Jacobian of the last segment
anchored at the last knot's x-offset, then — unless knot 0 has no x-offset
(in which case the source only asserts `not tune_starting_point`) — a
negative identity against knot 0 when loop closure is on; then the main knot
loop. -/
def get_jac_g_sparsity_indices (c : Config) : Except String (List (ℕ × ℕ)) :=
  let n := get_flat_problem_dim c
  let xoff := get_knot_x_offsets c
  let goff := get_knot_g_offsets c
  let first :=
    if c.loopOrFinal then
      match xoff.getLast? with
      | none => Except.error "IndexError: list index out of range"
      | some o =>
        match sparsityFullJac c n 0 o true with
        | .ok fj =>
          match xoff.getD 0 none with
          | none => if c.tune_starting_point then .error "AssertionError" else .ok fj
          | some o0 => .ok (fj ++ (if c.enforce_loop then negIdPairs c.world_dofs 0 o0 else []))
        | .error e => .error e
    else Except.ok []
  match first with
  | .ok fst =>
    match sparsityMainGo c n xoff goff ((List.range c.num_shots).drop 1) with
    | .ok rest => .ok (fst ++ rest)
    | .error e => .error e
  | .error e => .error e

/-! ## The brute-force finite-difference Jacobian (lines 706-719). -/

/-- `x_prime = x.copy(); x_prime[i] += eps`. -/
def addEps (x : List ℚ) (i : ℕ) (eps : ℚ) : List ℚ := x.set i (x.getD i 0 + eps)

/-- `_test_brute_force_jac_g` (lines 706-719): the dense `m × n` matrix whose
column `i` is `(g(x + eps·e_i) - g(x)) / eps` with `eps = 1e-8`; over `ℚ`
the quotient is exact. -/
def brute_force_jac_g (c : Config) (dyn : Dyn) (st : Store) (x : List ℚ) : Mat :=
  let n := get_flat_problem_dim c
  let m := get_constraint_dim c
  let eps : ℚ := 1 / 100000000
  let g := eval_g_of_x c dyn st x
  (List.range m).map (fun r =>
    (List.range n).map (fun i =>
      (((eval_g_of_x c dyn st (addEps x i eps)).getD r 0) - g.getD r 0) / eps))

/-! ## The gradient path: `tensors` (lines 87-91). -/

/-- The length of the knot lists built by the constructor (lines 52-67): the
starting knot plus `num_shots - 1` further knots (`range` of a negative count
is empty, exactly like truncated `ℕ` subtraction). -/
def knotCount (c : Config) : ℕ := 1 + (c.num_shots - 1)

/-- `tensors` (lines 87-91), as the list of variables whose gradient
accumulators `eval_grad_f` zeroes:
`self.torques + self.knot_vels[1:] + self.knot_poses[1:]`, prefixed, when
the starting point is tunable, by `[self.knot_poses[0], self.knot_poses[0]]`
(the source repeats the knot-0 pose and never lists the knot-0 velocity). -/
def tensors (c : Config) : List Var :=
  let t := (List.range c.steps).map Var.torque
    ++ ((List.range (knotCount c)).map Var.knotVel).drop 1
    ++ ((List.range (knotCount c)).map Var.knotPos).drop 1
  if c.tune_starting_point then Var.knotPos 0 :: Var.knotPos 0 :: t else t

/-! ## The constructor's lists (lines 49-84). -/

/-- Lines 52-59: the knot-pose list, starting knot first. -/
def initKnotPoses (c : Config) (startPos : List ℚ) : List (List ℚ) :=
  startPos :: List.replicate (c.num_shots - 1) (List.replicate c.world_dofs 0)

/-- Lines 60-67: the knot-velocity list, starting knot first. -/
def initKnotVels (c : Config) (startVel : List ℚ) : List (List ℚ) :=
  startVel :: List.replicate (c.num_shots - 1) (List.replicate c.world_dofs 0)

/-- Lines 76-79: the pre-knot pose/velocity records, one zero vector per
shot. -/
def initPreknot (c : Config) : List (List ℚ) :=
  List.replicate c.num_shots (List.replicate c.world_dofs 0)

/-- Line 74: `self.snapshots = [None] * self.steps`. -/
def initSnapshots (c : Config) : List (Option Snapshot) :=
  List.replicate c.steps none

/-! ## The solver-facing callbacks (lines 347-594) and their NaN guards.

A solver-supplied vector entry is either a real value or a NaN; the guards
test `np.isnan(x).any()` before anything else and raise (`assert`) when it
holds. -/

/-- A flat vector as handed over by the solver: `none` is a NaN entry. -/
abbrev NVec := List (Option ℚ)

/-- `np.isnan(x).any()`. -/
def hasNaN (x : NVec) : Bool := x.any Option.isNone

/-- The numeric content of a NaN-free vector. -/
def derat (x : NVec) : List ℚ := x.map (fun o => o.getD 0)

/-- `eval_f` (lines 347-360): abort on NaN input (lines 351-354), otherwise
re-roll and return the loss. -/
def eval_f_checked (c : Config) (dyn : Dyn) (st : Store) (x : NVec) : Except String ℚ :=
  if hasNaN x then .error "f(x) was fed NaNs!"
  else .ok (unroll c dyn (unflatten c (derat x) st)).loss

/-- `eval_grad_f` (lines 362-383): abort on NaN input (lines 367-370),
otherwise re-roll; the zeroing of the accumulators listed by `tensors()` and
the backward pass run on the external autodiff runtime, so the model returns
the fresh rollout together with the zeroed-variable list. -/
def eval_grad_f_checked (c : Config) (dyn : Dyn) (st : Store) (x : NVec) :
    Except String (Unrolled × List Var) :=
  if hasNaN x then .error "grad f(x) was fed NaNs!"
  else .ok (unroll c dyn (unflatten c (derat x) st), tensors c)

/-- `eval_g` (lines 385-436): abort on NaN input (lines 389-392), otherwise
re-roll and produce the constraint vector. -/
def eval_g_checked (c : Config) (dyn : Dyn) (st : Store) (x : NVec) :
    Except String (List ℚ) :=
  if hasNaN x then .error "g(x) was fed NaNs!"
  else .ok (eval_g_of_x c dyn st (derat x))

/-- `eval_jac_g` (lines 438-594): abort on NaN input (lines 442-445),
otherwise re-roll and assemble the sparse Jacobian values. -/
def eval_jac_g_checked (c : Config) (dyn : Dyn) (st : Store) (x : NVec) :
    Except String (List ℚ) :=
  if hasNaN x then .error "jac g(x) was fed NaNs!"
  else
    let st' := unflatten c (derat x) st
    .ok (eval_jac_g_values c (unroll c dyn st').snaps dyn.dt)

/-! ## The solver adapter: `ipopt` (lines 770-830). -/

/-- The callback wrappers built inside `ipopt` (lines 790-816): each call is
run under `try`; an exception is caught and printed, after which the wrapper
falls off its end and hands `None` back to the solver. -/
def ipoptWrap {α : Type} (cb : NVec → Except String α) (x : NVec) : Option α :=
  match cb x with
  | .ok v => some v
  | .error _ => none

/-- The wrapped `eval_f` passed to `ipyopt.Problem` (lines 790-795). -/
def ipopt_eval_f (c : Config) (dyn : Dyn) (st : Store) : NVec → Option ℚ :=
  ipoptWrap (eval_f_checked c dyn st)

/-- The wrapped `eval_grad_f` (lines 797-802). -/
def ipopt_eval_grad_f (c : Config) (dyn : Dyn) (st : Store) : NVec → Option (Unrolled × List Var) :=
  ipoptWrap (eval_grad_f_checked c dyn st)

/-- The wrapped `eval_g` (lines 804-809). -/
def ipopt_eval_g (c : Config) (dyn : Dyn) (st : Store) : NVec → Option (List ℚ) :=
  ipoptWrap (eval_g_checked c dyn st)

/-- The wrapped `eval_jac_g` (lines 811-816). -/
def ipopt_eval_jac_g (c : Config) (dyn : Dyn) (st : Store) : NVec → Option (List ℚ) :=
  ipoptWrap (eval_jac_g_checked c dyn st)

/-! ## Spec-side closed forms (second definitions, following the spec's
words, for the refinement claims). -/

/-- Modelled from the spec (section 4.3): the closed-form flat dimension,
"Σ over segments of (2D if that segment's knot is a free variable else 0) +
(segment length × D), where the last segment's length is
`min(shooting_length, steps − processed_so_far)`; subtract the dimension
lost to knot 0 when not tunable" (the non-free knot 0 contributes 0 in the
sum, which is that subtraction). -/
def flatDimClosedFormGo (c : Config) : ℕ → ℕ → ℕ → ℕ
  | 0, _, _ => 0
  | r + 1, i, tc =>
    let L := min c.shooting_length (c.steps - tc)
    (if 0 < i ∨ c.tune_starting_point then c.world_dofs * 2 else 0) + L * c.world_dofs
      + flatDimClosedFormGo c r (i + 1) (tc + L)

def flatDimClosedForm (c : Config) : ℕ := flatDimClosedFormGo c c.num_shots 0 0

/-- Modelled from the spec (section 4.3): the closed-form constraint
dimension, `2D × (num_shots − 1)`, plus `2D` when loop/terminal enforcement
is active. -/
def constraintDimClosedForm (c : Config) : ℕ :=
  c.world_dofs * 2 * (c.num_shots - 1) + (if c.loopOrFinal then c.world_dofs * 2 else 0)

/-- Modelled from the spec (section 4.4 / the claim): the constraint vector
described as blocks — first, only when loop closure or a fixed terminal
state is active, `terminal_state − reference_state` where the reference is
knot 0 under loop closure and the supplied fixed target otherwise; then,
for each knot `i > 0` in increasing order, `pre_knot_state_i − knot_state_i`
with the position difference before the velocity difference; and nothing
else. -/
def eval_g_spec (c : Config) (u : Unrolled) (st : Store) : List ℚ :=
  (if c.loopOrFinal then
      let reference :=
        if c.enforce_loop then st.knot_poses.getD 0 [] ++ st.knot_vels.getD 0 []
        else c.enforce_final_state.getD []
      zipSub (u.termPos ++ u.termVel) reference
    else [])
    ++ (List.range c.num_shots).flatMap (fun i =>
        if i = 0 then []
        else
          zipSub (u.preP.getD i [] ++ u.preV.getD i [])
            (st.knot_poses.getD i [] ++ st.knot_vels.getD i []))

/-! ## Shared list helper lemmas. -/

theorem getD_set_self {α : Type} (l : List α) (i : ℕ) (a d : α) (h : i < l.length) :
    (l.set i a).getD i d = a := by
  simp [List.getD, List.getElem?_set_self, h]

theorem getD_set_ne {α : Type} (l : List α) (i j : ℕ) (a d : α) (h : i ≠ j) :
    (l.set i a).getD j d = l.getD j d := by
  simp [List.getD, List.getElem?_set_ne h]

theorem flatMap_congr_left {α β : Type} (l : List α) (f g : α → List β)
    (h : ∀ a ∈ l, f a = g a) : l.flatMap f = l.flatMap g := by
  induction l with
  | nil => rfl
  | cons a l ih =>
    simp only [List.flatMap_cons]
    rw [h a (List.mem_cons_self a l), ih (fun x hx => h x (List.mem_cons_of_mem a hx))]

theorem foldl_funext {α β : Type} (f g : β → α → β) (l : List α) (b : β)
    (h : ∀ y a, f y a = g y a) : l.foldl f b = l.foldl g b := by
  induction l generalizing b with
  | nil => rfl
  | cons a l ih => simp only [List.foldl_cons, h, ih]

theorem foldl_set_zero_length (l : List ℕ) (m : List ℚ) :
    (l.foldl (fun m j => m.set j 0) m).length = m.length := by
  induction l generalizing m with
  | nil => rfl
  | cons a l ih => simp [List.foldl_cons, ih]

/-- Once an entry of the accumulator is zero — or is about to be zeroed by an
index still in the list — it is zero after the whole fold. -/
theorem foldl_set_zero_getD (l : List ℕ) (m : List ℚ) (j : ℕ)
    (h : (j ∈ l ∧ j < m.length) ∨ m.getD j 0 = 0) :
    (l.foldl (fun m j => m.set j 0) m).getD j 0 = 0 := by
  induction l generalizing m with
  | nil =>
    rcases h with ⟨hm, _⟩ | h
    · cases hm
    · exact h
  | cons a l ih =>
    simp only [List.foldl_cons]
    apply ih
    rcases h with ⟨hm, hlen⟩ | h
    · rcases List.mem_cons.mp hm with rfl | hm
      · right
        exact getD_set_self m j 0 0 hlen
      · left
        exact ⟨hm, by simpa using hlen⟩
    · right
      by_cases hja : a = j
      · subst hja
        by_cases hlen : a < m.length
        · exact getD_set_self m a 0 0 hlen
        · rw [List.set_eq_of_length_le (by omega)]
          exact h
      · rw [getD_set_ne m a j 0 0 hja]
        exact h

/-- Lines 69-71: the mask is zero at every in-range disabled index. -/
theorem mask_getD_zero (c : Config) (j : ℕ) (hj : j ∈ c.disable_actuators)
    (hlt : j < c.world_dofs) : c.mask.getD j 0 = 0 := by
  apply foldl_set_zero_getD
  left
  exact ⟨hj, by simpa using hlt⟩

theorem zipWith_mul_getD_zero (t m : List ℚ) (j : ℕ) (h : m.getD j 0 = 0) :
    (List.zipWith (· * ·) t m).getD j 0 = 0 := by
  induction t generalizing m j with
  | nil => simp [List.getD]
  | cons a t ih =>
    cases m with
    | nil => simp [List.getD]
    | cons b m =>
      cases j with
      | zero =>
        simp only [List.getD, List.zipWith_cons_cons, List.get?_cons_zero] at h ⊢
        simp [show b = 0 by simpa using h]
      | succ k =>
        simpa [List.getD] using ih m k (by simpa [List.getD] using h)

theorem zipWith_mul_set (t m : List ℚ) (j : ℕ) (q : ℚ) (h : m.getD j 0 = 0) :
    List.zipWith (· * ·) (t.set j q) m = List.zipWith (· * ·) t m := by
  induction t generalizing m j with
  | nil => simp
  | cons a t ih =>
    cases m with
    | nil => simp
    | cons b m =>
      cases j with
      | zero =>
        have hb : b = 0 := by simpa [List.getD] using h
        simp [hb]
      | succ k =>
        simp only [List.set_cons_succ, List.zipWith_cons_cons]
        rw [ih m k (by simpa [List.getD] using h)]

/-! ## C7: disabled actuators. -/

/-- C7: for every actuator index `j` in `disable_actuators`, the effective
control `torques[t] * mask` built on line 108 has component `j` equal to
zero, and the whole rollout — which passes this masked control to both the
running-cost call (line 134) and the forward-dynamics step (line 137) — is
unchanged when the stored decision value `torques[t][j]` is overwritten with
an arbitrary value. -/
theorem disabled_actuators_zeroed (c : Config) (dyn : Dyn) (st : Store) (tor : List ℚ)
    (tstep : ℕ) (q : ℚ) (j : ℕ) (hj : j ∈ c.disable_actuators) (hlt : j < c.world_dofs) :
    (effTorque c tor).getD j 0 = 0 ∧
    unroll c dyn
        { st with torques := st.torques.set tstep ((st.torques.getD tstep []).set j q) }
      = unroll c dyn st := by
  have hmask : c.mask.getD j 0 = 0 := mask_getD_zero c j hj hlt
  constructor
  · exact zipWith_mul_getD_zero tor c.mask j hmask
  · have hstep : ∀ (rs : RollState) (i : ℕ),
        unrollStep c dyn
            { st with torques := st.torques.set tstep ((st.torques.getD tstep []).set j q) }
            rs i
          = unrollStep c dyn st rs i := by
      intro rs i
      have htor :
          effTorque c ((st.torques.set tstep ((st.torques.getD tstep []).set j q)).getD i [])
            = effTorque c (st.torques.getD i []) := by
        by_cases hi : tstep = i
        · subst hi
          by_cases hlen : tstep < st.torques.length
          · rw [getD_set_self _ _ _ _ hlen]
            exact zipWith_mul_set _ _ _ _ hmask
          · rw [List.set_eq_of_length_le (by omega)]
        · rw [getD_set_ne _ _ _ _ _ hi]
      simp only [unrollStep, htor]
    have hfold : ∀ init : RollState,
        List.foldl
            (unrollStep c dyn
              { st with torques := st.torques.set tstep ((st.torques.getD tstep []).set j q) })
            init (List.range c.steps)
          = List.foldl (unrollStep c dyn st) init (List.range c.steps) :=
      fun init => foldl_funext _ _ _ init hstep
    simp only [unroll, hfold]

/-- Witness for C7: a one-dof world with actuator 0 disabled; the stored
torque value 9 never reaches the dynamics. -/
theorem disabled_actuators_zeroed_witness :
    (effTorque ⟨1, 1, 1, false, false, none, [0]⟩ [5]).getD 0 0 = 0 ∧
    unroll ⟨1, 1, 1, false, false, none, [0]⟩ (linDyn 1 0 1 1 1)
        { torques := ([[5]] : List (List ℚ)).set 0 (([5] : List ℚ).set 0 9),
          knot_poses := [[0]], knot_vels := [[0]] }
      = unroll ⟨1, 1, 1, false, false, none, [0]⟩ (linDyn 1 0 1 1 1)
          ⟨[[5]], [[0]], [[0]]⟩ := by
  have h := disabled_actuators_zeroed ⟨1, 1, 1, false, false, none, [0]⟩
    (linDyn 1 0 1 1 1) ⟨[[5]], [[0]], [[0]]⟩ [5] 0 9 0 (by decide) (by decide)
  exact h

/-! ## C8: NaN inputs abort every callback. -/

/-- C8: a NaN anywhere in the input vector makes each of the four
solver-facing callbacks emit its diagnostic and abort before any rollout
(lines 351-354, 367-370, 389-392, 442-445). -/
theorem nan_inputs_abort (c : Config) (dyn : Dyn) (st : Store) (x : NVec)
    (h : hasNaN x = true) :
    eval_f_checked c dyn st x = .error "f(x) was fed NaNs!" ∧
    eval_grad_f_checked c dyn st x = .error "grad f(x) was fed NaNs!" ∧
    eval_g_checked c dyn st x = .error "g(x) was fed NaNs!" ∧
    eval_jac_g_checked c dyn st x = .error "jac g(x) was fed NaNs!" := by
  refine ⟨?_, ?_, ?_, ?_⟩ <;>
    simp [eval_f_checked, eval_grad_f_checked, eval_g_checked, eval_jac_g_checked, h]

/-- Witness for C8 at the concrete NaN vector `[NaN]`. -/
theorem nan_inputs_abort_witness :
    eval_f_checked ⟨1, 1, 1, false, false, none, []⟩ (linDyn 1 0 1 1 1)
        ⟨[[0]], [[0]], [[0]]⟩ [none] = .error "f(x) was fed NaNs!" ∧
    eval_grad_f_checked ⟨1, 1, 1, false, false, none, []⟩ (linDyn 1 0 1 1 1)
        ⟨[[0]], [[0]], [[0]]⟩ [none] = .error "grad f(x) was fed NaNs!" ∧
    eval_g_checked ⟨1, 1, 1, false, false, none, []⟩ (linDyn 1 0 1 1 1)
        ⟨[[0]], [[0]], [[0]]⟩ [none] = .error "g(x) was fed NaNs!" ∧
    eval_jac_g_checked ⟨1, 1, 1, false, false, none, []⟩ (linDyn 1 0 1 1 1)
        ⟨[[0]], [[0]], [[0]]⟩ [none] = .error "jac g(x) was fed NaNs!" :=
  nan_inputs_abort ⟨1, 1, 1, false, false, none, []⟩ (linDyn 1 0 1 1 1)
    ⟨[[0]], [[0]], [[0]]⟩ [none] (by decide)

/-! ## C9: the solver adapter swallows callback exceptions. -/

/-- C9: whenever one of the four callbacks raises, the `try`/`except`
wrapper built inside `ipopt()` (lines 790-816) catches the exception and
hands `None` back to the solver instead of propagating it. -/
theorem callbacks_swallow_errors (c : Config) (dyn : Dyn) (st : Store) (x : NVec)
    (e1 e2 e3 e4 : String)
    (h1 : eval_f_checked c dyn st x = .error e1)
    (h2 : eval_grad_f_checked c dyn st x = .error e2)
    (h3 : eval_g_checked c dyn st x = .error e3)
    (h4 : eval_jac_g_checked c dyn st x = .error e4) :
    ipopt_eval_f c dyn st x = none ∧ ipopt_eval_grad_f c dyn st x = none ∧
    ipopt_eval_g c dyn st x = none ∧ ipopt_eval_jac_g c dyn st x = none := by
  refine ⟨?_, ?_, ?_, ?_⟩ <;>
    simp [ipopt_eval_f, ipopt_eval_grad_f, ipopt_eval_g, ipopt_eval_jac_g, ipoptWrap,
      h1, h2, h3, h4]

/-- Witness for C9: the NaN-triggered aborts never reach the solver. -/
theorem callbacks_swallow_errors_witness :
    ipopt_eval_f ⟨1, 1, 1, false, false, none, []⟩ (linDyn 1 0 1 1 1)
        ⟨[[0]], [[0]], [[0]]⟩ [none] = none ∧
    ipopt_eval_grad_f ⟨1, 1, 1, false, false, none, []⟩ (linDyn 1 0 1 1 1)
        ⟨[[0]], [[0]], [[0]]⟩ [none] = none ∧
    ipopt_eval_g ⟨1, 1, 1, false, false, none, []⟩ (linDyn 1 0 1 1 1)
        ⟨[[0]], [[0]], [[0]]⟩ [none] = none ∧
    ipopt_eval_jac_g ⟨1, 1, 1, false, false, none, []⟩ (linDyn 1 0 1 1 1)
        ⟨[[0]], [[0]], [[0]]⟩ [none] = none :=
  callbacks_swallow_errors ⟨1, 1, 1, false, false, none, []⟩ (linDyn 1 0 1 1 1)
    ⟨[[0]], [[0]], [[0]]⟩ [none]
    "f(x) was fed NaNs!" "grad f(x) was fed NaNs!" "g(x) was fed NaNs!" "jac g(x) was fed NaNs!"
    rfl rfl rfl rfl

/-! ## C10: the constructor's clamp keeps every list non-empty. -/

/-- C10: for `steps ≥ 1` (and a positive requested segment length, without
which the Python floor division would divide by zero), the clamp on line 36
gives `shooting_length ≤ steps`, hence `num_shots ≥ 1` on line 46, and the
knot-pose, knot-velocity, pre-knot and snapshot lists built on lines 49-84
are all non-empty — even when the caller passes `shooting_length > steps`. -/
theorem constructor_clamp_nonempty (c : Config) (p v : List ℚ)
    (hs : 1 ≤ c.steps) (ha : 1 ≤ c.shooting_length_arg) :
    c.shooting_length ≤ c.steps ∧ 1 ≤ c.num_shots ∧
    (initKnotPoses c p).length = c.num_shots ∧ (initKnotVels c v).length = c.num_shots ∧
    initKnotPoses c p ≠ [] ∧ initKnotVels c v ≠ [] ∧
    (initPreknot c).length = c.num_shots ∧ initPreknot c ≠ [] ∧
    (initSnapshots c).length = c.steps ∧ initSnapshots c ≠ [] := by
  have hsl : 0 < c.shooting_length := by
    simp only [Config.shooting_length]
    omega
  have hle : c.shooting_length ≤ c.steps := by
    simp [Config.shooting_length]
  have hns : 1 ≤ c.num_shots := by
    unfold Config.num_shots
    rw [Nat.one_le_div_iff hsl]
    exact hle
  refine ⟨hle, hns, ?_, ?_, by simp [initKnotPoses], by simp [initKnotVels], ?_, ?_, ?_, ?_⟩
  · simp only [initKnotPoses, List.length_cons, List.length_replicate]
    omega
  · simp only [initKnotVels, List.length_cons, List.length_replicate]
    omega
  · simp [initPreknot]
  · apply List.ne_nil_of_length_pos
    simp only [initPreknot, List.length_replicate]
    omega
  · simp [initSnapshots]
  · apply List.ne_nil_of_length_pos
    simp only [initSnapshots, List.length_replicate]
    omega

/-- Witness for C10 at a configuration whose requested segment length 5
exceeds the 3-step horizon. -/
theorem constructor_clamp_nonempty_witness :
    Config.shooting_length ⟨1, 3, 5, false, false, none, []⟩ ≤ 3 ∧
    1 ≤ Config.num_shots ⟨1, 3, 5, false, false, none, []⟩ ∧
    (initKnotPoses ⟨1, 3, 5, false, false, none, []⟩ [0]).length
      = Config.num_shots ⟨1, 3, 5, false, false, none, []⟩ ∧
    (initKnotVels ⟨1, 3, 5, false, false, none, []⟩ [0]).length
      = Config.num_shots ⟨1, 3, 5, false, false, none, []⟩ ∧
    initKnotPoses ⟨1, 3, 5, false, false, none, []⟩ [0] ≠ [] ∧
    initKnotVels ⟨1, 3, 5, false, false, none, []⟩ [0] ≠ [] ∧
    (initPreknot ⟨1, 3, 5, false, false, none, []⟩).length
      = Config.num_shots ⟨1, 3, 5, false, false, none, []⟩ ∧
    initPreknot ⟨1, 3, 5, false, false, none, []⟩ ≠ [] ∧
    (initSnapshots ⟨1, 3, 5, false, false, none, []⟩).length = 3 ∧
    initSnapshots ⟨1, 3, 5, false, false, none, []⟩ ≠ [] :=
  constructor_clamp_nonempty ⟨1, 3, 5, false, false, none, []⟩ [0] [0]
    (by decide) (by decide)

/-! ## C6: the shape of the constraint vector. -/

/-- C6: for every rollout result and store with coherent block lengths, the
constraint vector written by `eval_g` is exactly the spec's description —
first, only when loop closure or a fixed terminal state is active, the block
`terminal_state − reference_state` (reference = knot 0 under loop closure,
the supplied target otherwise), then for each knot `i > 0` in increasing
order the block `pre_knot_state_i − knot_state_i` with the position
difference before the velocity difference, and nothing else. -/
theorem eval_g_matches_spec (c : Config) (u : Unrolled) (st : Store)
    (h1 : u.termPos.length = (st.knot_poses.getD 0 []).length)
    (h2 : u.termPos.length = c.world_dofs)
    (h3 : ∀ g ∈ c.enforce_final_state, g.length = 2 * c.world_dofs)
    (h4 : ∀ i, (u.preP.getD i []).length = (st.knot_poses.getD i []).length) :
    eval_g_vec c u st = eval_g_spec c u st := by
  unfold eval_g_vec eval_g_spec
  congr 1
  · cases hl : c.enforce_loop with
    | true =>
      simp only [Config.loopOrFinal, hl, Bool.true_or, if_true, zipSub]
      exact (List.zipWith_append _ _ _ _ _ h1).symm
    | false =>
      cases hf : c.enforce_final_state with
      | none => simp [Config.loopOrFinal, hl, hf]
      | some g =>
        have hg : g.length = 2 * c.world_dofs := h3 g (by simp [hf])
        have hmin : u.termPos.length = (List.take c.world_dofs g).length := by
          rw [List.length_take]
          omega
        simp only [Config.loopOrFinal, hl, hf, Option.isSome_some, Bool.false_or,
          Option.getD_some, zipSub, Bool.false_eq_true, if_false, if_true]
        conv_rhs => rw [← List.take_append_drop c.world_dofs g]
        rw [List.zipWith_append _ _ _ _ _ hmin]
  · apply flatMap_congr_left
    intro i _
    by_cases hi : i = 0
    · simp [hi]
    · simp only [hi, if_false, zipSub]
      rw [List.zipWith_append _ _ _ _ _ (h4 i)]

/-- Witness for C6: a one-dof, one-segment configuration with a fixed
terminal target `(pos, vel) = (3, 4)`. -/
theorem eval_g_matches_spec_witness :
    eval_g_vec ⟨1, 2, 2, false, false, some [3, 4], []⟩
        ⟨[[0]], [[0]], [10], [20], [], 0⟩ ⟨[[0], [0]], [[1]], [[2]]⟩
      = eval_g_spec ⟨1, 2, 2, false, false, some [3, 4], []⟩
          ⟨[[0]], [[0]], [10], [20], [], 0⟩ ⟨[[0], [0]], [[1]], [[2]]⟩ :=
  eval_g_matches_spec ⟨1, 2, 2, false, false, some [3, 4], []⟩
    ⟨[[0]], [[0]], [10], [20], [], 0⟩ ⟨[[0], [0]], [[1]], [[2]]⟩
    (by decide) (by decide) (by intro g hg; cases hg; rfl) (by intro i; cases i <;> rfl)

/-! ## C4: the encode/decode round trip.

Support for the proof: `unflatten`'s cursor fold is rephrased as a
suffix-consuming recursion, and the flat vector is cut into
`world_dofs`-sized chunks. -/

/-- The cursor fold of `unflatten`, consuming the flat vector block by
block. -/
def consumeGo (D : ℕ) : List Var → List ℚ → Store → Store
  | [], _, st => st
  | v :: vs, xs, st => consumeGo D vs (xs.drop D) (writeBlock st v (xs.take D))

/-- The flat vector cut into `n` chunks of `D` entries. -/
def chunkD (D : ℕ) : ℕ → List ℚ → List (List ℚ)
  | 0, _ => []
  | n + 1, xs => xs.take D :: chunkD D n (xs.drop D)

/-- A variable names an existing slot of the store. -/
def varInRange (st : Store) : Var → Prop
  | Var.torque t => t < st.torques.length
  | Var.knotPos i => i < st.knot_poses.length
  | Var.knotVel i => i < st.knot_vels.length

theorem unflatten_eq_consumeGo (c : Config) (vars : List Var) (x : List ℚ) (st : Store)
    (cur : ℕ) :
    (vars.foldl
        (fun (p : Store × ℕ) v =>
          (writeBlock p.1 v ((x.drop p.2).take c.world_dofs), p.2 + c.world_dofs))
        (st, cur)).1
      = consumeGo c.world_dofs vars (x.drop cur) st := by
  induction vars generalizing st cur with
  | nil => rfl
  | cons v vs ih =>
    simp only [List.foldl_cons, consumeGo]
    rw [ih, List.drop_drop]

theorem read_write_self (st : Store) (v : Var) (b : List ℚ) (h : varInRange st v) :
    readBlock (writeBlock st v b) v = b := by
  cases v with
  | torque t => exact getD_set_self _ _ _ _ h
  | knotPos i => exact getD_set_self _ _ _ _ h
  | knotVel i => exact getD_set_self _ _ _ _ h

theorem read_write_ne (st : Store) (w v : Var) (b : List ℚ) (h : w ≠ v) :
    readBlock (writeBlock st w b) v = readBlock st v := by
  cases w with
  | torque t =>
    cases v with
    | torque u => exact getD_set_ne _ _ _ _ _ (fun hh => h (by rw [hh]))
    | knotPos i => rfl
    | knotVel i => rfl
  | knotPos j =>
    cases v with
    | torque u => rfl
    | knotPos i => exact getD_set_ne _ _ _ _ _ (fun hh => h (by rw [hh]))
    | knotVel i => rfl
  | knotVel j =>
    cases v with
    | torque u => rfl
    | knotPos i => rfl
    | knotVel i => exact getD_set_ne _ _ _ _ _ (fun hh => h (by rw [hh]))

theorem write_lengths (st : Store) (v : Var) (b : List ℚ) :
    (writeBlock st v b).torques.length = st.torques.length ∧
    (writeBlock st v b).knot_poses.length = st.knot_poses.length ∧
    (writeBlock st v b).knot_vels.length = st.knot_vels.length := by
  cases v <;> simp [writeBlock]

theorem varInRange_write (st : Store) (w : Var) (b : List ℚ) (v : Var)
    (h : varInRange st v) : varInRange (writeBlock st w b) v := by
  obtain ⟨h1, h2, h3⟩ := write_lengths st w b
  cases v <;> simp only [varInRange, h1, h2, h3] <;> exact h

theorem read_consumeGo_fresh (D : ℕ) (vars : List Var) (xs : List ℚ) (st : Store)
    (v : Var) (h : v ∉ vars) :
    readBlock (consumeGo D vars xs st) v = readBlock st v := by
  induction vars generalizing xs st with
  | nil => rfl
  | cons w vs ih =>
    simp only [consumeGo]
    rw [ih _ _ (fun hm => h (List.mem_cons_of_mem w hm))]
    exact read_write_ne st w v _ (fun hh => h (hh ▸ List.mem_cons_self w vs))

/-- Reading back after a sequence of writes over pairwise-distinct, in-range
variables recovers exactly the chunks that were written. -/
theorem consumeGo_readback (D : ℕ) (vars : List Var) (xs : List ℚ) (st : Store)
    (hnd : vars.Nodup) (hrange : ∀ v ∈ vars, varInRange st v) :
    vars.map (readBlock (consumeGo D vars xs st)) = chunkD D vars.length xs := by
  induction vars generalizing xs st with
  | nil => rfl
  | cons v vs ih =>
    simp only [List.map_cons, consumeGo, List.length_cons, chunkD]
    have hvnotin : v ∉ vs := (List.nodup_cons.mp hnd).1
    have hhead : readBlock (consumeGo D vs (List.drop D xs) (writeBlock st v (List.take D xs))) v
        = List.take D xs := by
      rw [read_consumeGo_fresh D vs _ _ v hvnotin]
      exact read_write_self st v _ (hrange v (List.mem_cons_self v vs))
    have htail := ih (List.drop D xs) (writeBlock st v (List.take D xs))
      (List.nodup_cons.mp hnd).2
      (fun w hw => varInRange_write st v _ w (hrange w (List.mem_cons_of_mem v hw)))
    rw [hhead, htail]

theorem writeBlocks_exact (D : ℕ) (blocks : List (List ℚ)) (out : List ℚ)
    (hall : ∀ b ∈ blocks, b.length = D) (hlen : out.length = blocks.length * D) :
    writeBlocks D blocks out = some blocks.flatten := by
  induction blocks generalizing out with
  | nil =>
    simp only [List.length_nil, Nat.zero_mul] at hlen
    simp [writeBlocks, List.eq_nil_of_length_eq_zero hlen]
  | cons b bs ih =>
    have hb : b.length = D := hall b (List.mem_cons_self b bs)
    have hout : D ≤ out.length := by
      rw [hlen]
      simp only [List.length_cons]
      calc D = 1 * D := (Nat.one_mul D).symm
        _ ≤ (bs.length + 1) * D := Nat.mul_le_mul_right D (by omega)
    rw [writeBlocks, if_pos ⟨hb, hout⟩,
      ih (out.drop D) (fun x hx => hall x (List.mem_cons_of_mem b hx))
        (by rw [List.length_drop, hlen]; simp only [List.length_cons]; ring_nf; omega)]
    simp

theorem chunkD_flatten (D n : ℕ) (xs : List ℚ) :
    (chunkD D n xs).flatten = xs.take (n * D) := by
  induction n generalizing xs with
  | zero => simp [chunkD]
  | succ n ih =>
    simp only [chunkD, List.flatten_cons, ih]
    rw [show (n + 1) * D = D + n * D by ring, List.take_add]

theorem chunkD_length (D n : ℕ) (xs : List ℚ) : (chunkD D n xs).length = n := by
  induction n generalizing xs with
  | zero => rfl
  | succ n ih => simp [chunkD, ih]

theorem chunkD_block_length (D n : ℕ) (xs : List ℚ) (h : n * D ≤ xs.length) :
    ∀ b ∈ chunkD D n xs, b.length = D := by
  induction n generalizing xs with
  | zero => simp [chunkD]
  | succ n ih =>
    intro b hb
    rcases List.mem_cons.mp hb with rfl | hb
    · rw [List.length_take]
      have : D ≤ xs.length := by
        calc D = 1 * D := (Nat.one_mul D).symm
          _ ≤ (n + 1) * D := Nat.mul_le_mul_right D (by omega)
          _ ≤ xs.length := h
      omega
    · exact ih (xs.drop D) (by rw [List.length_drop]; ring_nf at h ⊢; omega) b hb

/-- Lower bounds along the traversal: every variable emitted from segment
`i` on has knot index at least `i` and torque index at least the cursor. -/
def varLB (i tc : ℕ) : Var → Prop
  | Var.torque t => tc ≤ t
  | Var.knotPos j => i ≤ j
  | Var.knotVel j => i ≤ j

/-- Upper bounds along the traversal: knot indices stay below the last
segment processed and torque indices below the horizon. -/
def varUB (hi steps : ℕ) : Var → Prop
  | Var.torque t => t < steps
  | Var.knotPos j => j < hi
  | Var.knotVel j => j < hi

theorem flatVarsGo_bounds (c : Config) (r : ℕ) :
    ∀ (i tc : ℕ) (v : Var), v ∈ flatVarsGo c r i tc →
      varLB i tc v ∧ varUB (i + r) c.steps v := by
  induction r with
  | zero =>
    intro i tc v hv
    simp [flatVarsGo] at hv
  | succ r ih =>
    intro i tc v hv
    simp only [flatVarsGo, List.mem_append, List.mem_map, List.mem_range] at hv
    rcases hv with (hk | ⟨j, hj, rfl⟩) | hrec
    · have hv2 : v = Var.knotPos i ∨ v = Var.knotVel i := by
        by_cases hc : 0 < i ∨ c.tune_starting_point
        · rw [if_pos hc] at hk
          simpa using hk
        · rw [if_neg hc] at hk
          simp at hk
      rcases hv2 with rfl | rfl <;> exact ⟨by simp [varLB], by simp only [varUB]; omega⟩
    · refine ⟨by simp [varLB], ?_⟩
      simp only [varUB]
      omega
    · obtain ⟨hlb, hub⟩ := ih (i + 1) (tc + min c.shooting_length (c.steps - tc)) v hrec
      constructor
      · cases v <;> simp only [varLB] at hlb ⊢ <;> omega
      · cases v <;> simp only [varUB] at hub ⊢ <;> omega

theorem flatVarsGo_nodup (c : Config) (r : ℕ) :
    ∀ (i tc : ℕ), (flatVarsGo c r i tc).Nodup := by
  induction r with
  | zero =>
    intro i tc
    simp [flatVarsGo]
  | succ r ih =>
    intro i tc
    simp only [flatVarsGo]
    rw [List.nodup_append, List.nodup_append]
    refine ⟨⟨?_, ?_, ?_⟩, ?_, ?_⟩
    · by_cases hc : 0 < i ∨ c.tune_starting_point
      · rw [if_pos hc]
        simp
      · rw [if_neg hc]
        simp
    · exact List.Nodup.map
        (fun a b hab => by simp only [Var.torque.injEq] at hab; omega)
        (List.nodup_range _)
    · intro a ha hb
      have ha2 : a = Var.knotPos i ∨ a = Var.knotVel i := by
        by_cases hc : 0 < i ∨ c.tune_starting_point
        · rw [if_pos hc] at ha
          simpa using ha
        · rw [if_neg hc] at ha
          simp at ha
      obtain ⟨j, hj, hje⟩ := by simpa using hb
      rcases ha2 with rfl | rfl <;> simp at hje
    · exact ih (i + 1) (tc + min c.shooting_length (c.steps - tc))
    · intro a ha hb
      rw [List.mem_append] at ha
      rcases ha with ha | ha
      · have ha2 : a = Var.knotPos i ∨ a = Var.knotVel i := by
          by_cases hc : 0 < i ∨ c.tune_starting_point
          · rw [if_pos hc] at ha
            simpa using ha
          · rw [if_neg hc] at ha
            simp at ha
        have hlb := (flatVarsGo_bounds c r (i + 1)
          (tc + min c.shooting_length (c.steps - tc)) a hb).1
        rcases ha2 with rfl | rfl <;> simp only [varLB] at hlb <;> omega
      · obtain ⟨j, hj, rfl⟩ := by simpa using ha
        have hlb := (flatVarsGo_bounds c r (i + 1)
          (tc + min c.shooting_length (c.steps - tc)) _ hb).1
        simp only [varLB] at hlb
        omega

theorem flatVarsGo_length (c : Config) (hS : c.num_shots * c.shooting_length ≤ c.steps)
    (r : ℕ) :
    ∀ i, i + r ≤ c.num_shots →
      (flatVarsGo c r i (i * c.shooting_length)).length
        = (if 0 < i ∨ c.tune_starting_point then r * (2 + c.shooting_length)
           else r * (2 + c.shooting_length) - 2) := by
  induction r with
  | zero =>
    intro i hi
    simp [flatVarsGo]
  | succ r ih =>
    intro i hi
    have hmul1 : (i + 1) * c.shooting_length ≤ c.num_shots * c.shooting_length :=
      Nat.mul_le_mul_right _ (by omega)
    have hmul2 : (i + 1) * c.shooting_length = i * c.shooting_length + c.shooting_length := by
      ring
    have hL : min c.shooting_length (c.steps - i * c.shooting_length)
        = c.shooting_length := by
      omega
    have hrec := ih (i + 1) (by omega)
    rw [hmul2] at hrec
    have htail : 0 < i + 1 ∨ c.tune_starting_point := Or.inl (by omega)
    rw [if_pos htail] at hrec
    simp only [flatVarsGo, List.length_append, List.length_map, List.length_range, hL, hrec]
    by_cases hc : 0 < i ∨ c.tune_starting_point
    · rw [if_pos hc, if_pos hc]
      simp only [List.length_cons, List.length_nil]
      ring
    · rw [if_neg hc, if_neg hc]
      simp only [List.length_nil]
      have h3 : (r + 1) * (2 + c.shooting_length) = r * (2 + c.shooting_length)
          + 2 + c.shooting_length := by ring
      omega

theorem flatVars_length_mul (c : Config)
    (hsteps : 1 ≤ c.steps) (harg : 1 ≤ c.shooting_length_arg)
    (hdvd : c.steps % c.shooting_length = 0) :
    (flatVars c).length * c.world_dofs = get_flat_problem_dim c := by
  have hsl : 0 < c.shooting_length := by
    simp only [Config.shooting_length]
    omega
  have hle : c.shooting_length ≤ c.steps := by
    simp [Config.shooting_length]
  have hS1 : 1 ≤ c.num_shots := by
    unfold Config.num_shots
    rw [Nat.one_le_div_iff hsl]
    exact hle
  have hmul : c.num_shots * c.shooting_length = c.steps := by
    unfold Config.num_shots
    exact Nat.div_mul_cancel (Nat.dvd_of_mod_eq_zero hdvd)
  have hlen := flatVarsGo_length c (le_of_eq hmul) c.num_shots 0 (by omega)
  rw [Nat.zero_mul] at hlen
  unfold flatVars
  rw [hlen]
  unfold get_flat_problem_dim
  simp only [hdvd, Nat.zero_mul, Nat.sub_zero]
  have hring : c.num_shots * (2 + c.shooting_length) * c.world_dofs
      = c.num_shots * (c.world_dofs * 2 + c.shooting_length * c.world_dofs) := by
    ring
  by_cases htune : c.tune_starting_point
  · rw [if_pos (Or.inr htune), if_pos htune]
    omega
  · rw [if_neg (by simpa using htune), if_neg htune]
    rw [Nat.sub_mul]
    have h2S : 2 ≤ c.num_shots * (2 + c.shooting_length) := by
      calc 2 ≤ c.num_shots * 2 := by omega
        _ ≤ c.num_shots * (2 + c.shooting_length) := Nat.mul_le_mul_left _ (by omega)
    omega

/-- C4: for every configuration on which the encode/decode pair is
well-defined (`steps` a multiple of the clamped `shooting_length`; outside
that regime `flatten` itself fails, see C3) and every store of the
constructor's shape, `flatten(·, 'state')` after `unflatten(x)` returns
exactly `x`. -/
theorem flatten_unflatten_roundtrip (c : Config) (st : Store) (x : List ℚ)
    (hsteps : 1 ≤ c.steps) (harg : 1 ≤ c.shooting_length_arg)
    (hdvd : c.steps % c.shooting_length = 0)
    (hkp : st.knot_poses.length = c.num_shots)
    (hkv : st.knot_vels.length = c.num_shots)
    (htq : st.torques.length = c.steps)
    (hx : x.length = get_flat_problem_dim c) :
    flatten_state c (unflatten c x st) = some x := by
  have hnd : (flatVars c).Nodup := flatVarsGo_nodup c c.num_shots 0 0
  have hrange : ∀ v ∈ flatVars c, varInRange st v := by
    intro v hv
    have hub := (flatVarsGo_bounds c c.num_shots 0 0 v hv).2
    cases v with
    | torque t =>
      simp only [varUB] at hub
      simpa [varInRange, htq] using hub
    | knotPos j =>
      simp only [varUB] at hub
      simp only [varInRange, hkp]
      omega
    | knotVel j =>
      simp only [varUB] at hub
      simp only [varInRange, hkv]
      omega
  have hN : x.length = (flatVars c).length * c.world_dofs := by
    rw [hx, flatVars_length_mul c hsteps harg hdvd]
  have hunfl : unflatten c x st = consumeGo c.world_dofs (flatVars c) x st := by
    unfold unflatten
    have h := unflatten_eq_consumeGo c (flatVars c) x st 0
    simpa using h
  unfold flatten_state
  rw [hunfl, consumeGo_readback c.world_dofs (flatVars c) x st hnd hrange]
  rw [writeBlocks_exact c.world_dofs _ _
    (chunkD_block_length c.world_dofs _ x (le_of_eq hN.symm))
    (by rw [List.length_replicate, chunkD_length, ← hx, hN])]
  rw [chunkD_flatten, ← hN, List.take_length]

/-- Witness for C4: a two-segment, one-dof configuration with a tunable
start; the flat vector `[1, 2, 3, 4, 5, 6]` survives the round trip. -/
theorem flatten_unflatten_roundtrip_witness :
    flatten_state ⟨1, 2, 1, true, false, none, []⟩
        (unflatten ⟨1, 2, 1, true, false, none, []⟩ [1, 2, 3, 4, 5, 6]
          ⟨[[0], [0]], [[0], [0]], [[0], [0]]⟩)
      = some [1, 2, 3, 4, 5, 6] :=
  flatten_unflatten_roundtrip ⟨1, 2, 1, true, false, none, []⟩
    ⟨[[0], [0]], [[0], [0]], [[0], [0]]⟩ [1, 2, 3, 4, 5, 6]
    (by decide) (by decide) (by decide) (by decide) (by decide) (by decide) (by decide)

/-! ## C1: the backward-chained Jacobian vs. the finite-difference Jacobian. -/

/-- The C1 failing configuration: one dof, two one-step segments, tunable
start, no loop/terminal constraint. -/
def cfgC1 : Config := ⟨1, 2, 1, true, false, none, []⟩

/-- The C1 linear stand-in: `p' = 2p + v + f`, `v' = v + f` with `Δt = 1`,
whose snapshot Jacobians are `Pp = 2, Vp = 0, Vv = 1, Vf = 1`. -/
def dynC1 : Dyn := linDyn 2 0 1 1 1

def stC1 : Store := ⟨[[0], [0]], [[0], [0]], [[0], [0]]⟩

def xC1 : List ℚ := List.replicate 6 0

unseal Rat.add Rat.mul Rat.inv Rat.sub in
/-- C1: at the failing input, sparsity position 3 is row 0 (the position gap
at knot 1), column 1 (the knot-0 starting velocity); the assembled value
there is 2, while the finite-difference Jacobian of `eval_g` — exact here,
since `g` is affine in `x` — is 1: the mismatch far exceeds the `1e-5`
tolerance.  The culprit is lines 543-553: `posend_velnext` is recomputed
from the already reassigned `posend_posnext` instead of its pre-update
value, so the phase-phase block carries `Pp·Δt·Vv = 2` where the chain rule
gives `Δt·Vv = 1`. -/
theorem eval_jac_g_accumulator_update_bug :
    ((get_jac_g_sparsity_indices cfgC1).toOption.getD []).getD 3 (0, 0) = (0, 1) ∧
    (eval_jac_g_values cfgC1 (unroll cfgC1 dynC1 (unflatten cfgC1 xC1 stC1)).snaps 1).getD 3 0
      = 2 ∧
    ((brute_force_jac_g cfgC1 dynC1 stC1 xC1).getD 0 []).getD 1 0 = 1 ∧
    ¬ |(eval_jac_g_values cfgC1 (unroll cfgC1 dynC1 (unflatten cfgC1 xC1 stC1)).snaps 1).getD 3 0
        - ((brute_force_jac_g cfgC1 dynC1 stC1 xC1).getD 0 []).getD 1 0| ≤ 1 / 100000 := by
  decide

/-! ## C2: sparsity-pattern / value-list congruence. -/

/-- The C2 failing configuration: one dof, a single two-step segment
(`num_shots = 1`), loop closure on, start not tunable — the configuration
the spec itself singles out in its testable properties. -/
def cfgC2 : Config := ⟨1, 2, 2, false, true, none, []⟩

def dynC2 : Dyn := linDyn 1 0 1 1 1

def stC2 : Store := ⟨[[0], [0]], [[0]], [[0]]⟩

unseal Rat.add Rat.mul Rat.inv Rat.sub in
/-- C2: at the failing configuration the pattern generator dies adding the
`None` knot-0 x-offset to an integer (line 666 hands
`knot_x_offsets[num_shots-1] = None` to `insertFullJacobian`, which runs
`cursor += world_dofs*2` on it), so no pattern exists at all — while the
value assembler happily emits 8 values (line 571 includes a phase-phase
block for the untunable knot 0), more than the 4 entries the whole
`m × n = 2 × 2` Jacobian has.  `eval_jac_g`'s own congruence assert
(line 588) can never even run. -/
theorem sparsity_pattern_value_incongruence_bug :
    get_jac_g_sparsity_indices cfgC2
        = .error "TypeError: unsupported operand types for add: NoneType and int" ∧
    (eval_jac_g_values cfgC2 (unroll cfgC2 dynC2 stC2).snaps 1).length = 8 ∧
    get_constraint_dim cfgC2 * get_flat_problem_dim cfgC2 = 4 :=
  ⟨rfl, by decide⟩

/-! ## C3: the flat/constraint dimension closed forms. -/

/-- The C3 failing configuration: one dof, 3 steps, segment length 2 —
`steps` not divisible by `shooting_length`. -/
def cfgC3 : Config := ⟨1, 3, 2, false, false, none, []⟩

def stC3 : Store := ⟨[[5], [6], [7]], [[1]], [[2]]⟩

/-- C3: at the failing input `get_flat_problem_dim()` returns 1 (line 203
subtracts the `(steps % shooting_length) · D` remainder) while the spec's
closed form and the `flatten`/`unflatten` traversal both cover 2 entries
(`flatten`'s `min(shooting_length, len(torques) - torque_cursor)` never
shortens a segment because `num_shots` already floors), so `flatten` dies
broadcasting 2 entries into a length-1 buffer; the constraint-dimension
closed form, by contrast, does hold here. -/
theorem get_flat_problem_dim_flatten_mismatch_bug :
    get_flat_problem_dim cfgC3 = 1 ∧ flatDimClosedForm cfgC3 = 2 ∧
    (flatVars cfgC3).length * cfgC3.world_dofs = 2 ∧
    flatten_state cfgC3 stC3 = none ∧
    get_constraint_dim cfgC3 = constraintDimClosedForm cfgC3 := by
  decide

/-! ## C5: the gradient accumulators zeroed by `eval_grad_f`. -/

/-- The C5 failing configuration: a tunable starting point (so knot 0's
position and velocity are both decision variables). -/
def cfgC5 : Config := ⟨1, 2, 1, true, false, none, []⟩

/-- C5: with `tune_starting_point` on, knot 0's velocity is a decision
variable — `flatten('grad')` reads its gradient — yet `tensors()` (line 90)
prepends `knot_poses[0]` twice and never lists `knot_vels[0]`, so
`eval_grad_f`'s zeroing loop (lines 374-376) misses that accumulator and
stale gradient contributions survive across iterations. -/
theorem tensors_omits_knot_velocity_bug :
    Var.knotVel 0 ∈ flatVars cfgC5 ∧ Var.knotVel 0 ∉ tensors cfgC5 ∧
    (tensors cfgC5).count (Var.knotPos 0) = 2 := by
  decide

end MST
